import Mathlib

/-!
Shallow embedding of the PNG metadata stripping library
(`go-png-meta-web-strip`, file `strip.go`) and verification of its
specification.

Bytes are modelled as natural numbers (a Go `[]byte` always satisfies
`b < 256` for every element; theorems that need this carry it as a
hypothesis).  Chunk types (Go `string` of 4 bytes) are modelled as
`List Nat` of length 4.  Go's `(value, error)` returns are modelled with
`Except`.
-/

set_option maxRecDepth 10000

namespace Pngmetawebstrip

/-- The statistics record of removed chunks, embedding the anonymous
`Removed` struct of the Go `Result` type.  Each field accumulates bytes
removed for that category (the Go code adds the full on-wire chunk size
to the matching field). -/
structure Removed where
  textChunks : Nat
  timeChunk : Nat
  background : Nat
  exifData : Nat
  otherChunks : Nat
deriving Repr, DecidableEq

/-- Embedding of the Go `Result` struct: removal statistics plus the total
number of bytes removed. -/
structure Result where
  removed : Removed
  total : Nat
deriving Repr, DecidableEq

/-- The zero-initialised `Result` (Go `&Result{}`). -/
def Result.init : Result := ⟨⟨0, 0, 0, 0, 0⟩, 0⟩

instance {ε α : Type} [DecidableEq ε] [DecidableEq α] :
    DecidableEq (Except ε α) := fun
  | .ok a, .ok b => decidable_of_iff (a = b) (by simp)
  | .error e, .error f => decidable_of_iff (e = f) (by simp)
  | .ok _, .error _ => .isFalse (by simp)
  | .error _, .ok _ => .isFalse (by simp)

/-- The errors returned by `PngMetaWebStrip`, one constructor per
`fmt.Errorf` site in the Go source, carrying the same data that the Go
error message interpolates. -/
inductive PngError where
  | dataTooShort
  | invalidSignature
  | incompleteChunk (offset : Nat)
  | chunkExceedsData (offset : Nat)
  | invalidCRC (chunkType : List Nat) (offset : Nat)
deriving Repr, DecidableEq

/-- Classification of errors following the spec's taxonomy: every error of
`PngMetaWebStrip` except the CRC mismatch is a `FormatError`. -/
def PngError.isFormatError : PngError → Bool
  | .invalidCRC _ _ => false
  | _ => true

/-- Classification of errors following the spec's taxonomy: the CRC
mismatch error is the `IntegrityError`. -/
def PngError.isIntegrityError : PngError → Bool
  | .invalidCRC _ _ => true
  | _ => false

/-- The 4 ASCII bytes of the chunk type "IHDR". -/
def cIHDR : List Nat := [73, 72, 68, 82]
/-- The 4 ASCII bytes of the chunk type "PLTE". -/
def cPLTE : List Nat := [80, 76, 84, 69]
/-- The 4 ASCII bytes of the chunk type "IDAT". -/
def cIDAT : List Nat := [73, 68, 65, 84]
/-- The 4 ASCII bytes of the chunk type "IEND". -/
def cIEND : List Nat := [73, 69, 78, 68]
/-- The 4 ASCII bytes of the chunk type "tRNS". -/
def ctRNS : List Nat := [116, 82, 78, 83]
/-- The 4 ASCII bytes of the chunk type "gAMA". -/
def cgAMA : List Nat := [103, 65, 77, 65]
/-- The 4 ASCII bytes of the chunk type "cHRM". -/
def ccHRM : List Nat := [99, 72, 82, 77]
/-- The 4 ASCII bytes of the chunk type "sRGB". -/
def csRGB : List Nat := [115, 82, 71, 66]
/-- The 4 ASCII bytes of the chunk type "iCCP". -/
def ciCCP : List Nat := [105, 67, 67, 80]
/-- The 4 ASCII bytes of the chunk type "sBIT". -/
def csBIT : List Nat := [115, 66, 73, 84]
/-- The 4 ASCII bytes of the chunk type "pHYs". -/
def cpHYs : List Nat := [112, 72, 89, 115]
/-- The 4 ASCII bytes of the chunk type "tEXt". -/
def ctEXt : List Nat := [116, 69, 88, 116]
/-- The 4 ASCII bytes of the chunk type "zTXt". -/
def czTXt : List Nat := [122, 84, 88, 116]
/-- The 4 ASCII bytes of the chunk type "iTXt". -/
def ciTXt : List Nat := [105, 84, 88, 116]
/-- The 4 ASCII bytes of the chunk type "tIME". -/
def ctIME : List Nat := [116, 73, 77, 69]
/-- The 4 ASCII bytes of the chunk type "bKGD". -/
def cbKGD : List Nat := [98, 75, 71, 68]
/-- The 4 ASCII bytes of the chunk type "eXIf". -/
def ceXIf : List Nat := [101, 88, 73, 102]

/-- The eleven chunk types mapped to `true` in the Go `essentialChunks`
map, in source order. -/
def essentialList : List (List Nat) :=
  [cIHDR, cPLTE, cIDAT, cIEND, ctRNS, cgAMA, ccHRM, csRGB, ciCCP, csBIT, cpHYs]

/-- Embedding of the Go `essentialChunks` map: a map from 4-byte chunk
type to `Bool` whose lookup defaults to `false` for any key not among the
eleven listed types. -/
def essentialChunks (t : List Nat) : Bool :=
  t == cIHDR || t == cPLTE || t == cIDAT || t == cIEND || t == ctRNS ||
  t == cgAMA || t == ccHRM || t == csRGB || t == ciCCP || t == csBIT ||
  t == cpHYs

/-- Embedding of Go `shouldKeepChunk`: the map lookup
`essentialChunks[chunkType]`. -/
def shouldKeepChunk (chunkType : List Nat) : Bool :=
  essentialChunks chunkType

/-- Embedding of Go `trackRemovedChunk`: add `size` to the grand total,
then add `size` to the single bucket selected by the `switch` on the
chunk type (default: `OtherChunks`). -/
def trackRemovedChunk (result : Result) (chunkType : List Nat) (size : Nat) :
    Result :=
  let result' := { result with total := result.total + size }
  if chunkType = ctEXt ∨ chunkType = czTXt ∨ chunkType = ciTXt then
    { result' with removed.textChunks := result'.removed.textChunks + size }
  else if chunkType = ctIME then
    { result' with removed.timeChunk := result'.removed.timeChunk + size }
  else if chunkType = cbKGD then
    { result' with removed.background := result'.removed.background + size }
  else if chunkType = ceXIf then
    { result' with removed.exifData := result'.removed.exifData + size }
  else
    { result' with removed.otherChunks := result'.removed.otherChunks + size }

/-- The generator polynomial of CRC-32 (IEEE), in the reversed bit order
used by `hash/crc32` (`crc32.IEEE`). -/
def crcPoly : Nat := 0xEDB88320

/-- One bit-step of the CRC-32 (IEEE) state update. -/
def crcShift (s : Nat) : Nat :=
  if s % 2 = 1 then (s >>> 1) ^^^ crcPoly else s >>> 1

/-- Eight bit-steps of the CRC-32 state update (one input byte's worth). -/
def crcShift8 (s : Nat) : Nat :=
  crcShift (crcShift (crcShift (crcShift (crcShift (crcShift (crcShift (crcShift s)))))))

/-- Absorb one input byte into the CRC-32 state. -/
def crcByte (s b : Nat) : Nat :=
  crcShift8 (s ^^^ b)

/-- `n` byte-steps of the CRC-32 state update with zero input bytes:
the evolution of a state difference across `n` untouched bytes. -/
def crcZeros : Nat → Nat → Nat
  | 0, t => t
  | n + 1, t => crcZeros n (crcShift8 t)

/-- Absorb a byte sequence into the CRC-32 state. -/
def crcUpdate (s : Nat) (bs : List Nat) : Nat :=
  bs.foldl crcByte s

/-- CRC-32 (IEEE) of a byte sequence: the bit-level specification of Go's
`crc32.ChecksumIEEE` (initial state `0xFFFFFFFF`, reflected polynomial
`0xEDB88320`, final complement). -/
def crc32 (bs : List Nat) : Nat :=
  crcUpdate 0xFFFFFFFF bs ^^^ 0xFFFFFFFF

/-- Big-endian assembly of 4 bytes into a 32-bit value, the embedding of
`binary.BigEndian.Uint32`. -/
def beUint32 (b0 b1 b2 b3 : Nat) : Nat :=
  (b0 <<< 24) ||| (b1 <<< 16) ||| (b2 <<< 8) ||| b3

/-- Read a big-endian 32-bit value from `data` at index `i`
(`binary.BigEndian.Uint32(data[i : i+4])`; only used at indices where the
Go code has already checked that all 4 bytes are in bounds, so the `getD`
defaults are never taken). -/
def readBE32 (data : List Nat) (i : Nat) : Nat :=
  beUint32 (data.getD i 0) (data.getD (i + 1) 0) (data.getD (i + 2) 0)
    (data.getD (i + 3) 0)

/-- The 8-byte PNG signature. -/
def pngSignature : List Nat := [137, 80, 78, 71, 13, 10, 26, 10]

/-- The chunk-processing loop of Go `PngMetaWebStrip` (`for offset <
len(data)`), embedded with an explicit fuel argument to make the
recursion structural.  Each iteration advances `offset` by at least 12,
so `data.length` fuel is always sufficient; the fuel-exhaustion branch is
unreachable for the fuel `PngMetaWebStrip` supplies (see
`stripLoop_fuel_sufficient`). -/
def stripLoop (data : List Nat) (fuel offset : Nat) (output : List Nat)
    (result : Result) : Except PngError (List Nat × Result) :=
    if offset < data.length then
      match fuel with
      | 0 => .ok (output, result)
      | fuel + 1 =>
        if data.length < offset + 8 then
          .error (.incompleteChunk offset)
        else
          let length := readBE32 data offset
          if data.length < offset + 12 + length then
            .error (.chunkExceedsData offset)
          else
            let chunkType := (data.drop (offset + 4)).take 4
            let fullChunkSize := 12 + length
            let chunkData := (data.drop (offset + 4)).take (4 + length)
            let crc := readBE32 data (offset + 8 + length)
            let calculatedCRC := crc32 chunkData
            if crc ≠ calculatedCRC then
              .error (.invalidCRC chunkType offset)
            else if shouldKeepChunk chunkType then
              stripLoop data fuel (offset + fullChunkSize)
                (output ++ (data.drop offset).take fullChunkSize) result
            else
              stripLoop data fuel (offset + fullChunkSize) output
                (trackRemovedChunk result chunkType fullChunkSize)
    else
      .ok (output, result)

/-- Embedding of Go `PngMetaWebStrip`: validate the length and signature,
then run the chunk loop from offset 8 with the signature already written
to the output buffer. -/
def PngMetaWebStrip (data : List Nat) : Except PngError (List Nat × Result) :=
  if data.length < 8 then
    .error .dataTooShort
  else if data.take 8 ≠ pngSignature then
    .error .invalidSignature
  else
    stripLoop data data.length 8 pngSignature Result.init

/-- The 4-byte big-endian encoding of a 32-bit value. -/
def encodeBE32 (n : Nat) : List Nat :=
  [n / 2 ^ 24 % 256, n / 2 ^ 16 % 256, n / 2 ^ 8 % 256, n % 256]

/-- A PNG chunk in structural form: its 4-byte type and its payload. -/
structure Chunk where
  ctype : List Nat
  payload : List Nat
deriving Repr, DecidableEq

/-- Well-formedness of a structural chunk: the type is 4 bytes, the
payload length fits the 32-bit length field, and all bytes are byte-sized
(as every Go `[]byte` element is). -/
def ChunkWF (c : Chunk) : Prop :=
  c.ctype.length = 4 ∧ c.payload.length < 2 ^ 32 ∧
    (∀ b ∈ c.ctype, b < 256) ∧ ∀ b ∈ c.payload, b < 256

instance (c : Chunk) : Decidable (ChunkWF c) := by
  unfold ChunkWF; infer_instance

/-- The on-wire bytes of a chunk: big-endian payload length, type,
payload, and big-endian CRC-32 of type ++ payload. -/
def encodeChunk (c : Chunk) : List Nat :=
  encodeBE32 c.payload.length ++ c.ctype ++ c.payload ++
    encodeBE32 (crc32 (c.ctype ++ c.payload))

/-- The concatenated on-wire bytes of a chunk sequence. -/
def encodeChunks (cs : List Chunk) : List Nat :=
  (cs.map encodeChunk).flatten

/-- A whole PNG byte stream in structural form: signature followed by the
on-wire chunks. -/
def encodePng (cs : List Chunk) : List Nat :=
  pngSignature ++ encodeChunks cs

/-- The statistics accumulated by a run of the loop over the chunks `cs`
starting from `result`: dropped chunks are tracked, kept chunks are not. -/
def accumStats (result : Result) (cs : List Chunk) : Result :=
  cs.foldl
    (fun r c =>
      if shouldKeepChunk c.ctype then r
      else trackRemovedChunk r c.ctype (12 + c.payload.length))
    result

/-- The offset of the start of chunk `i` inside `encodePng cs`. -/
def chunkStart (cs : List Chunk) (i : Nat) : Nat :=
  8 + (encodeChunks (cs.take i)).length

/-! ### Helper lemmas: xor algebra and CRC-32 linearity -/

theorem xor_left_comm (x y z : Nat) : x ^^^ (y ^^^ z) = y ^^^ (x ^^^ z) := by
  rw [← Nat.xor_assoc, Nat.xor_comm x y, Nat.xor_assoc]

theorem xor_cancel_left (x y : Nat) : x ^^^ (x ^^^ y) = y := by
  rw [← Nat.xor_assoc, Nat.xor_self, Nat.zero_xor]

theorem xor_left_cancel {a b c : Nat} (h : a ^^^ b = a ^^^ c) : b = c := by
  have h2 := congrArg (fun x => a ^^^ x) h
  simpa only [xor_cancel_left] using h2

theorem xor_right_ne {a d : Nat} (hd : d ≠ 0) : a ^^^ d ≠ a := by
  intro h
  exact hd (xor_left_cancel (a := a) (by simpa using h))

theorem xor_shiftRight_one (a b : Nat) :
    (a ^^^ b) >>> 1 = a >>> 1 ^^^ b >>> 1 := by
  have h : ∀ x : Nat, x >>> 1 = x / 2 := fun x => by
    rw [Nat.shiftRight_eq_div_pow]
  rw [h, h, h, Nat.xor_div_two]

theorem crcShift_xor (a b : Nat) :
    crcShift (a ^^^ b) = crcShift a ^^^ crcShift b := by
  unfold crcShift
  rcases Nat.mod_two_eq_zero_or_one a with ha | ha <;>
    rcases Nat.mod_two_eq_zero_or_one b with hb | hb
  · have hab : (a ^^^ b) % 2 = 0 := by
      rcases Nat.mod_two_eq_zero_or_one (a ^^^ b) with h | h
      · exact h
      · rw [Nat.xor_mod_two_eq_one] at h; simp [ha, hb] at h
    rw [if_neg (by omega), if_neg (by omega), if_neg (by omega),
      xor_shiftRight_one]
  · have hab : (a ^^^ b) % 2 = 1 := by
      rw [Nat.xor_mod_two_eq_one]; simp [ha, hb]
    rw [if_pos hab, if_neg (by omega), if_pos hb, xor_shiftRight_one,
      Nat.xor_assoc]
  · have hab : (a ^^^ b) % 2 = 1 := by
      rw [Nat.xor_mod_two_eq_one]; simp [ha, hb]
    rw [if_pos hab, if_pos ha, if_neg (by omega), xor_shiftRight_one]
    simp only [Nat.xor_assoc, Nat.xor_comm, xor_left_comm]
  · have hab : (a ^^^ b) % 2 = 0 := by
      rcases Nat.mod_two_eq_zero_or_one (a ^^^ b) with h | h
      · exact h
      · rw [Nat.xor_mod_two_eq_one] at h; simp [ha, hb] at h
    rw [if_neg (by omega), if_pos ha, if_pos hb, xor_shiftRight_one]
    simp only [Nat.xor_assoc, Nat.xor_comm, xor_left_comm, xor_cancel_left,
      Nat.xor_self, Nat.xor_zero, Nat.zero_xor]

theorem crcShift8_xor (a b : Nat) :
    crcShift8 (a ^^^ b) = crcShift8 a ^^^ crcShift8 b := by
  unfold crcShift8
  rw [crcShift_xor, crcShift_xor, crcShift_xor, crcShift_xor, crcShift_xor,
    crcShift_xor, crcShift_xor, crcShift_xor]

theorem crcByte_xor (s t b : Nat) :
    crcByte (s ^^^ t) b = crcByte s b ^^^ crcShift8 t := by
  unfold crcByte
  rw [show s ^^^ t ^^^ b = (s ^^^ b) ^^^ t by
    simp only [Nat.xor_assoc, Nat.xor_comm, xor_left_comm]]
  rw [crcShift8_xor]

theorem crcUpdate_xor (bs : List Nat) :
    ∀ s t, crcUpdate (s ^^^ t) bs = crcUpdate s bs ^^^ crcZeros bs.length t := by
  induction bs with
  | nil => intro s t; simp [crcUpdate, crcZeros]
  | cons b bs ih =>
    intro s t
    show crcUpdate (crcByte (s ^^^ t) b) bs =
      crcUpdate (crcByte s b) bs ^^^ crcZeros (bs.length + 1) t
    rw [crcByte_xor, ih]
    rfl

theorem crcUpdate_set (bs : List Nat) :
    ∀ k s d, k < bs.length →
      crcUpdate s (bs.set k (bs.getD k 0 ^^^ d)) =
        crcUpdate s bs ^^^ crcZeros (bs.length - k) d := by
  induction bs with
  | nil => intro k s d hk; simp at hk
  | cons b bs ih =>
    intro k s d hk
    match k with
    | 0 =>
      show crcUpdate (crcByte s (b ^^^ d)) bs =
        crcUpdate (crcByte s b) bs ^^^ crcZeros (bs.length + 1 - 0) d
      have h1 : crcByte s (b ^^^ d) = crcByte s b ^^^ crcShift8 d := by
        unfold crcByte
        rw [← Nat.xor_assoc, crcShift8_xor]
      rw [h1, crcUpdate_xor]
      rfl
    | k + 1 =>
      show crcUpdate (crcByte s b) (bs.set k (bs.getD k 0 ^^^ d)) =
        crcUpdate (crcByte s b) bs ^^^ crcZeros (bs.length + 1 - (k + 1)) d
      rw [ih k _ d (by simpa using hk)]
      have harith : bs.length + 1 - (k + 1) = bs.length - k := by omega
      rw [harith]

theorem crcShift_lt (s : Nat) (h : s < 2 ^ 32) : crcShift s < 2 ^ 32 := by
  unfold crcShift
  have h1 : s >>> 1 < 2 ^ 32 := by
    rw [Nat.shiftRight_eq_div_pow]
    exact lt_of_le_of_lt (Nat.div_le_self s (2 ^ 1)) h
  split
  · exact Nat.xor_lt_two_pow h1 (by norm_num [crcPoly])
  · exact h1

theorem crcShift_ne_zero (s : Nat) (hs : s ≠ 0) (h : s < 2 ^ 32) :
    crcShift s ≠ 0 := by
  unfold crcShift
  have hdiv : s >>> 1 = s / 2 := by
    rw [Nat.shiftRight_eq_div_pow]
  split
  · intro h0
    have h1 : s >>> 1 = crcPoly := by
      have h2 := congrArg (fun x => x ^^^ crcPoly) h0
      simpa [Nat.xor_assoc] using h2
    rw [hdiv] at h1
    have h32 : (2 : Nat) ^ 32 = 4294967296 := by norm_num
    unfold crcPoly at h1
    omega
  · rw [hdiv]
    rename_i hodd
    omega

theorem crcShift_both (t : Nat) (h : t ≠ 0 ∧ t < 2 ^ 32) :
    crcShift t ≠ 0 ∧ crcShift t < 2 ^ 32 :=
  ⟨crcShift_ne_zero t h.1 h.2, crcShift_lt t h.2⟩

theorem crcShift8_lt (s : Nat) (h : s < 2 ^ 32) : crcShift8 s < 2 ^ 32 := by
  unfold crcShift8
  exact crcShift_lt _ (crcShift_lt _ (crcShift_lt _ (crcShift_lt _
    (crcShift_lt _ (crcShift_lt _ (crcShift_lt _ (crcShift_lt _ h)))))))

theorem crcShift8_ne_zero (s : Nat) (hs : s ≠ 0) (h : s < 2 ^ 32) :
    crcShift8 s ≠ 0 := by
  unfold crcShift8
  exact (crcShift_both _ (crcShift_both _ (crcShift_both _ (crcShift_both _
    (crcShift_both _ (crcShift_both _ (crcShift_both _
      (crcShift_both _ ⟨hs, h⟩)))))))).1

theorem crcZeros_ne_zero (n : Nat) :
    ∀ t, t ≠ 0 → t < 2 ^ 32 → crcZeros n t ≠ 0 := by
  induction n with
  | zero => intro t ht _; exact ht
  | succ n ih =>
    intro t ht hlt
    exact ih _ (crcShift8_ne_zero t ht hlt) (crcShift8_lt t hlt)

theorem crc32_set_ne (bs : List Nat) (k d : Nat) (hk : k < bs.length)
    (hd : d ≠ 0) (hdlt : d < 2 ^ 32) :
    crc32 (bs.set k (bs.getD k 0 ^^^ d)) ≠ crc32 bs := by
  unfold crc32
  rw [crcUpdate_set bs k _ d hk]
  intro h
  have h1 : crcUpdate 0xFFFFFFFF bs ^^^ crcZeros (bs.length - k) d =
      crcUpdate 0xFFFFFFFF bs := by
    have h2 := congrArg (fun x => x ^^^ 0xFFFFFFFF) h
    simpa [Nat.xor_assoc] using h2
  exact xor_right_ne (crcZeros_ne_zero _ d hd hdlt) h1

theorem crcUpdate_lt (bs : List Nat) :
    ∀ s, s < 2 ^ 32 → (∀ b ∈ bs, b < 256) → crcUpdate s bs < 2 ^ 32 := by
  induction bs with
  | nil => intro s hs _; exact hs
  | cons b bs ih =>
    intro s hs hb
    show crcUpdate (crcByte s b) bs < 2 ^ 32
    refine ih _ ?_ fun x hx => hb x (List.mem_cons_of_mem _ hx)
    unfold crcByte
    refine crcShift8_lt _ (Nat.xor_lt_two_pow hs ?_)
    have hb0 : b < 256 := hb b (List.mem_cons_self b bs)
    omega

theorem crc32_lt (bs : List Nat) (h : ∀ b ∈ bs, b < 256) :
    crc32 bs < 2 ^ 32 := by
  unfold crc32
  exact Nat.xor_lt_two_pow (crcUpdate_lt bs _ (by norm_num) h) (by norm_num)

/-! ### Helper lemmas: big-endian 32-bit values -/

theorem or_eq_add {a b : Nat} (n : Nat) (hb : b < 2 ^ n) :
    (a * 2 ^ n) ||| b = a * 2 ^ n + b := by
  rw [Nat.mul_comm]
  exact (Nat.mul_add_lt_is_or hb a).symm

theorem beUint32_eq (b0 b1 b2 b3 : Nat) (h1 : b1 < 256) (h2 : b2 < 256)
    (h3 : b3 < 256) :
    beUint32 b0 b1 b2 b3 = b0 * 2 ^ 24 + b1 * 2 ^ 16 + b2 * 2 ^ 8 + b3 := by
  unfold beUint32
  rw [Nat.shiftLeft_eq, Nat.shiftLeft_eq, Nat.shiftLeft_eq,
    Nat.or_assoc, Nat.or_assoc]
  rw [or_eq_add 8 (by omega), or_eq_add 16 (by omega), or_eq_add 24 (by omega)]
  omega

theorem beUint32_lt (b0 b1 b2 b3 : Nat) (h0 : b0 < 256) (h1 : b1 < 256)
    (h2 : b2 < 256) (h3 : b3 < 256) : beUint32 b0 b1 b2 b3 < 2 ^ 32 := by
  rw [beUint32_eq b0 b1 b2 b3 h1 h2 h3]
  omega

theorem beUint32_encodeBE32 (n : Nat) (h : n < 2 ^ 32) :
    beUint32 (n / 2 ^ 24 % 256) (n / 2 ^ 16 % 256) (n / 2 ^ 8 % 256) (n % 256) =
      n := by
  rw [beUint32_eq _ _ _ _ (by omega) (by omega) (by omega)]
  omega

theorem encodeBE32_beUint32 (b0 b1 b2 b3 : Nat) (h0 : b0 < 256) (h1 : b1 < 256)
    (h2 : b2 < 256) (h3 : b3 < 256) :
    encodeBE32 (beUint32 b0 b1 b2 b3) = [b0, b1, b2, b3] := by
  rw [beUint32_eq b0 b1 b2 b3 h1 h2 h3]
  unfold encodeBE32
  have e0 : (b0 * 2 ^ 24 + b1 * 2 ^ 16 + b2 * 2 ^ 8 + b3) / 2 ^ 24 % 256 = b0 := by
    omega
  have e1 : (b0 * 2 ^ 24 + b1 * 2 ^ 16 + b2 * 2 ^ 8 + b3) / 2 ^ 16 % 256 = b1 := by
    omega
  have e2 : (b0 * 2 ^ 24 + b1 * 2 ^ 16 + b2 * 2 ^ 8 + b3) / 2 ^ 8 % 256 = b2 := by
    omega
  have e3 : (b0 * 2 ^ 24 + b1 * 2 ^ 16 + b2 * 2 ^ 8 + b3) % 256 = b3 := by
    omega
  rw [e0, e1, e2, e3]

/-! ### Helper lemmas: list indexing -/

theorem getD_append_right' (l₁ l₂ : List Nat) (i : Nat) :
    (l₁ ++ l₂).getD (l₁.length + i) 0 = l₂.getD i 0 := by
  rw [List.getD_eq_getElem?_getD, List.getD_eq_getElem?_getD,
    List.getElem?_append_right (Nat.le_add_right _ _), Nat.add_sub_cancel_left]

theorem getD_lt_of_all (data : List Nat) (h : ∀ b ∈ data, b < 256) (i : Nat)
    (hi : i < data.length) : data.getD i 0 < 256 := by
  rw [List.getD_eq_getElem?_getD, List.getElem?_eq_getElem hi]
  exact h _ (List.getElem_mem hi)

theorem readBE32_cons (a : Nat) (l : List Nat) (i : Nat) :
    readBE32 (a :: l) (i + 1) = readBE32 l i := by
  unfold readBE32
  rw [List.getD_cons_succ, List.getD_cons_succ, List.getD_cons_succ,
    List.getD_cons_succ]

theorem readBE32_at (pre : List Nat) (b0 b1 b2 b3 : Nat) (rest : List Nat) :
    readBE32 (pre ++ b0 :: b1 :: b2 :: b3 :: rest) pre.length =
      beUint32 b0 b1 b2 b3 := by
  induction pre with
  | nil => rfl
  | cons a pre ih =>
    rw [List.cons_append, List.length_cons, readBE32_cons]
    exact ih

theorem take_four_eq : ∀ l : List Nat, 4 ≤ l.length →
    l.take 4 = [l.getD 0 0, l.getD 1 0, l.getD 2 0, l.getD 3 0]
  | _ :: _ :: _ :: _ :: _, _ => rfl
  | [], h => by simp at h
  | [_], h => by simp at h
  | [_, _], h => by simp at h
  | [_, _, _], h => by simp at h

/-! ### Helper lemmas: chunk encodings -/

theorem length_encodeBE32 (n : Nat) : (encodeBE32 n).length = 4 := rfl

theorem length_encodeChunk (c : Chunk) (h : c.ctype.length = 4) :
    (encodeChunk c).length = 12 + c.payload.length := by
  simp [encodeChunk, length_encodeBE32, h]
  omega

theorem encodeChunks_nil : encodeChunks [] = [] := rfl

theorem encodeChunks_cons (c : Chunk) (cs : List Chunk) :
    encodeChunks (c :: cs) = encodeChunk c ++ encodeChunks cs := by
  simp [encodeChunks]

theorem length_le_length_encodeChunks (cs : List Chunk) :
    cs.length ≤ (encodeChunks cs).length := by
  induction cs with
  | nil => simp [encodeChunks_nil]
  | cons c cs ih =>
    rw [encodeChunks_cons, List.length_append, List.length_cons]
    have h : 1 ≤ (encodeChunk c).length := by
      simp only [encodeChunk, List.length_append, length_encodeBE32]
      omega
    omega

theorem accumStats_nil (r : Result) : accumStats r [] = r := rfl

theorem accumStats_cons (r : Result) (c : Chunk) (cs : List Chunk) :
    accumStats r (c :: cs) =
      accumStats
        (if shouldKeepChunk c.ctype then r
         else trackRemovedChunk r c.ctype (12 + c.payload.length)) cs := rfl

/-! ### The loop on encoded chunks -/

theorem stripLoop_step (c : Chunk) (hc : ChunkWF c) (pre rest output : List Nat)
    (result : Result) (fuel : Nat) :
    stripLoop (pre ++ (encodeChunk c ++ rest)) (fuel + 1) pre.length output
        result =
      stripLoop (pre ++ (encodeChunk c ++ rest)) fuel
        (pre.length + (12 + c.payload.length))
        (if shouldKeepChunk c.ctype then output ++ encodeChunk c else output)
        (if shouldKeepChunk c.ctype then result
         else trackRemovedChunk result c.ctype (12 + c.payload.length)) := by
  obtain ⟨ht4, hplt, htb, hpb⟩ := hc
  have hlenc : (encodeChunk c).length = 12 + c.payload.length :=
    length_encodeChunk c ht4
  have hdl : (pre ++ (encodeChunk c ++ rest)).length =
      pre.length + ((12 + c.payload.length) + rest.length) := by
    simp [hlenc]
  have hcrclt : crc32 (c.ctype ++ c.payload) < 2 ^ 32 := by
    refine crc32_lt _ fun b hb => ?_
    rcases List.mem_append.mp hb with h | h
    · exact htb b h
    · exact hpb b h
  have hshape : encodeChunk c ++ rest =
      (c.payload.length / 2 ^ 24 % 256) :: (c.payload.length / 2 ^ 16 % 256) ::
        (c.payload.length / 2 ^ 8 % 256) :: (c.payload.length % 256) ::
        (c.ctype ++ (c.payload ++
          (encodeBE32 (crc32 (c.ctype ++ c.payload)) ++ rest))) := by
    simp [encodeChunk, encodeBE32]
  have hread : readBE32 (pre ++ (encodeChunk c ++ rest)) pre.length =
      c.payload.length := by
    rw [hshape, readBE32_at]
    exact beUint32_encodeBE32 _ hplt
  have hg1 : pre.length < (pre ++ (encodeChunk c ++ rest)).length := by
    rw [hdl]; omega
  have hg2 : ¬((pre ++ (encodeChunk c ++ rest)).length < pre.length + 8) := by
    rw [hdl]; omega
  have hg3 : ¬((pre ++ (encodeChunk c ++ rest)).length <
      pre.length + 12 + c.payload.length) := by
    rw [hdl]; omega
  have hdrop4 : (pre ++ (encodeChunk c ++ rest)).drop (pre.length + 4) =
      c.ctype ++ (c.payload ++
        (encodeBE32 (crc32 (c.ctype ++ c.payload)) ++ rest)) := by
    rw [List.drop_append, hshape]
    rfl
  have hct : ((pre ++ (encodeChunk c ++ rest)).drop (pre.length + 4)).take 4 =
      c.ctype := by
    rw [hdrop4]
    exact List.take_left' ht4
  have hcd : ((pre ++ (encodeChunk c ++ rest)).drop (pre.length + 4)).take
      (4 + c.payload.length) = c.ctype ++ c.payload := by
    rw [hdrop4, ← List.append_assoc]
    exact List.take_left' (by simp [ht4])
  have hplen : (pre ++ (encodeBE32 c.payload.length ++
      (c.ctype ++ c.payload))).length = pre.length + 8 + c.payload.length := by
    simp [length_encodeBE32, ht4]
    omega
  have hassoc : pre ++ (encodeChunk c ++ rest) =
      (pre ++ (encodeBE32 c.payload.length ++ (c.ctype ++ c.payload))) ++
        ((crc32 (c.ctype ++ c.payload) / 2 ^ 24 % 256) ::
          (crc32 (c.ctype ++ c.payload) / 2 ^ 16 % 256) ::
          (crc32 (c.ctype ++ c.payload) / 2 ^ 8 % 256) ::
          (crc32 (c.ctype ++ c.payload) % 256) :: rest) := by
    simp [encodeChunk, encodeBE32]
  have hcrc : readBE32 (pre ++ (encodeChunk c ++ rest))
      (pre.length + 8 + c.payload.length) = crc32 (c.ctype ++ c.payload) := by
    rw [hassoc, ← hplen, readBE32_at]
    exact beUint32_encodeBE32 _ hcrclt
  have hkeepslice : ((pre ++ (encodeChunk c ++ rest)).drop pre.length).take
      (12 + c.payload.length) = encodeChunk c := by
    rw [List.drop_left]
    exact List.take_left' hlenc
  rw [stripLoop, if_pos hg1]
  show (if (pre ++ (encodeChunk c ++ rest)).length < pre.length + 8 then _
    else _) = _
  rw [if_neg hg2]
  simp only [hread, hct, hcd, hcrc, hkeepslice]
  rw [if_neg (by omega : ¬((pre ++ (encodeChunk c ++ rest)).length <
    pre.length + 12 + c.payload.length))]
  rw [if_neg (by simp : ¬(crc32 (c.ctype ++ c.payload) ≠
    crc32 (c.ctype ++ c.payload)))]
  by_cases hk : shouldKeepChunk c.ctype
  · rw [if_pos hk, if_pos hk, if_pos hk]
  · rw [if_neg hk, if_neg hk, if_neg hk]

theorem stripLoop_encode (cs : List Chunk) :
    ∀ (pre output : List Nat) (result : Result) (fuel : Nat),
      (∀ c ∈ cs, ChunkWF c) → cs.length ≤ fuel →
      stripLoop (pre ++ encodeChunks cs) fuel pre.length output result =
        .ok (output ++ encodeChunks (cs.filter fun c => shouldKeepChunk c.ctype),
          accumStats result cs) := by
  induction cs with
  | nil =>
    intro pre output result fuel _ _
    rw [encodeChunks_nil, List.append_nil, stripLoop.eq_def,
      if_neg (by omega : ¬(pre.length < pre.length)), accumStats_nil,
      List.filter_nil, encodeChunks_nil, List.append_nil]
  | cons c cs ih =>
    intro pre output result fuel hwf hfuel
    match fuel with
    | fuel + 1 =>
      rw [encodeChunks_cons,
        stripLoop_step c (hwf c (List.mem_cons_self c cs)) pre
          (encodeChunks cs) output result fuel]
      have hoff : pre.length + (12 + c.payload.length) =
          (pre ++ encodeChunk c).length := by
        rw [List.length_append,
          length_encodeChunk c (hwf c (List.mem_cons_self c cs)).1]
      have hdata : pre ++ (encodeChunk c ++ encodeChunks cs) =
          (pre ++ encodeChunk c) ++ encodeChunks cs := by
        rw [List.append_assoc]
      rw [hoff, hdata,
        ih (pre ++ encodeChunk c) _ _ fuel
          (fun x hx => hwf x (List.mem_cons_of_mem c hx)) (by
            have := hfuel; simp at this ⊢; omega)]
      rw [accumStats_cons]
      by_cases hk : shouldKeepChunk c.ctype
      · rw [if_pos hk, if_pos hk]
        simp [List.filter_cons, hk, encodeChunks_cons, List.append_assoc]
      · rw [if_neg hk, if_neg hk]
        simp [List.filter_cons, hk]

theorem PngMetaWebStrip_encode (cs : List Chunk) (hwf : ∀ c ∈ cs, ChunkWF c) :
    PngMetaWebStrip (encodePng cs) =
      .ok (pngSignature ++
        encodeChunks (cs.filter fun c => shouldKeepChunk c.ctype),
        accumStats Result.init cs) := by
  unfold PngMetaWebStrip encodePng
  have hsiglen : pngSignature.length = 8 := rfl
  have hlen : (pngSignature ++ encodeChunks cs).length =
      8 + (encodeChunks cs).length := by
    rw [List.length_append, hsiglen]
  rw [if_neg (by rw [hlen]; omega)]
  rw [if_neg (by
    rw [List.take_append_of_le_length (by rw [hsiglen]),
      List.take_of_length_le (by rw [hsiglen])]
    simp)]
  have h8 : (8 : Nat) = pngSignature.length := rfl
  conv =>
    lhs
    rw [h8]
  rw [stripLoop_encode cs pngSignature pngSignature Result.init _ hwf (by
    rw [hlen]
    have := length_le_length_encodeChunks cs
    omega)]

theorem stripLoop_exit (data : List Nat) (fuel offset : Nat)
    (output : List Nat) (result : Result) (h : data.length ≤ offset) :
    stripLoop data fuel offset output result = .ok (output, result) := by
  rw [stripLoop.eq_def, if_neg (by omega)]

theorem trackRemovedChunk_total (r : Result) (t : List Nat) (s : Nat) :
    (trackRemovedChunk r t s).total = r.total + s := by
  unfold trackRemovedChunk
  split_ifs <;> rfl

theorem stripLoop_conserve (fuel : Nat) :
    ∀ (data : List Nat) (offset : Nat) (output out' : List Nat)
      (result res' : Result),
      data.length ≤ offset + 12 * fuel →
      offset ≤ data.length →
      stripLoop data fuel offset output result = .ok (out', res') →
      out'.length + res'.total =
        output.length + result.total + (data.length - offset) := by
  induction fuel with
  | zero =>
    intro data offset output out' result res' hf ho h
    rw [stripLoop_exit data 0 offset output result (by omega)] at h
    simp only [Except.ok.injEq, Prod.mk.injEq] at h
    obtain ⟨h1, h2⟩ := h
    subst h1; subst h2
    omega
  | succ fuel ih =>
    intro data offset output out' result res' hf ho h
    by_cases hlt : offset < data.length
    · rw [stripLoop, if_pos hlt] at h
      simp only [] at h
      by_cases h8 : data.length < offset + 8
      · rw [if_pos h8] at h; simp at h
      · rw [if_neg h8] at h
        by_cases hbound : data.length < offset + 12 + readBE32 data offset
        · rw [if_pos hbound] at h; simp at h
        · rw [if_neg hbound] at h
          by_cases hcrc : readBE32 data (offset + 8 + readBE32 data offset) ≠
              crc32 ((data.drop (offset + 4)).take (4 + readBE32 data offset))
          · rw [if_pos hcrc] at h; simp at h
          · rw [if_neg hcrc] at h
            have hslice :
                ((data.drop offset).take (12 + readBE32 data offset)).length =
                  12 + readBE32 data offset := by
              rw [List.length_take, List.length_drop]
              omega
            by_cases hk :
                shouldKeepChunk ((data.drop (offset + 4)).take 4)
            · rw [if_pos hk] at h
              have hrec := ih data (offset + (12 + readBE32 data offset)) _ _ _ _
                (by omega) (by omega) h
              rw [List.length_append, hslice] at hrec
              omega
            · rw [if_neg hk] at h
              have hrec := ih data (offset + (12 + readBE32 data offset)) _ _ _ _
                (by omega) (by omega) h
              rw [trackRemovedChunk_total] at hrec
              omega
    · rw [stripLoop_exit data _ offset output result (by omega)] at h
      simp only [Except.ok.injEq, Prod.mk.injEq] at h
      obtain ⟨h1, h2⟩ := h
      subst h1; subst h2
      omega

theorem getD_drop' (l : List Nat) (n i : Nat) :
    (l.drop n).getD i 0 = l.getD (n + i) 0 := by
  rw [List.getD_eq_getElem?_getD, List.getD_eq_getElem?_getD,
    List.getElem?_drop]

theorem chunk_surgery (data : List Nat) (offset : Nat)
    (h256 : ∀ b ∈ data, b < 256)
    (h8 : offset + 8 ≤ data.length)
    (hbound : offset + 12 + readBE32 data offset ≤ data.length)
    (hcrcval : readBE32 data (offset + 8 + readBE32 data offset) =
      crc32 ((data.drop (offset + 4)).take (4 + readBE32 data offset))) :
    ChunkWF ⟨(data.drop (offset + 4)).take 4,
        ((data.drop (offset + 4)).take (4 + readBE32 data offset)).drop 4⟩ ∧
      data.drop offset =
        encodeChunk ⟨(data.drop (offset + 4)).take 4,
          ((data.drop (offset + 4)).take (4 + readBE32 data offset)).drop 4⟩ ++
          data.drop (offset + (12 + readBE32 data offset)) := by
  have hd0 : data.getD offset 0 < 256 := getD_lt_of_all data h256 _ (by omega)
  have hd1 : data.getD (offset + 1) 0 < 256 :=
    getD_lt_of_all data h256 _ (by omega)
  have hd2 : data.getD (offset + 2) 0 < 256 :=
    getD_lt_of_all data h256 _ (by omega)
  have hd3 : data.getD (offset + 3) 0 < 256 :=
    getD_lt_of_all data h256 _ (by omega)
  have hLdef : readBE32 data offset =
      beUint32 (data.getD offset 0) (data.getD (offset + 1) 0)
        (data.getD (offset + 2) 0) (data.getD (offset + 3) 0) := rfl
  have hLlt : readBE32 data offset < 2 ^ 32 := by
    rw [hLdef]; exact beUint32_lt _ _ _ _ hd0 hd1 hd2 hd3
  have hcdlen : ((data.drop (offset + 4)).take
      (4 + readBE32 data offset)).length = 4 + readBE32 data offset := by
    rw [List.length_take, List.length_drop]
    omega
  have hctlen : ((data.drop (offset + 4)).take 4).length = 4 := by
    rw [List.length_take, List.length_drop]
    omega
  have hctcd : ((data.drop (offset + 4)).take (4 + readBE32 data offset)).take 4
      = (data.drop (offset + 4)).take 4 := by
    rw [List.take_take, Nat.min_eq_left (by omega)]
  have hcdsplit : (data.drop (offset + 4)).take 4 ++
      ((data.drop (offset + 4)).take (4 + readBE32 data offset)).drop 4 =
      (data.drop (offset + 4)).take (4 + readBE32 data offset) := by
    conv_lhs => rw [← hctcd]
    rw [List.take_append_drop]
  have hpllen : (((data.drop (offset + 4)).take
      (4 + readBE32 data offset)).drop 4).length = readBE32 data offset := by
    rw [List.length_drop, hcdlen]
    omega
  have hwfc : ChunkWF ⟨(data.drop (offset + 4)).take 4,
      ((data.drop (offset + 4)).take (4 + readBE32 data offset)).drop 4⟩ := by
    refine ⟨hctlen, by rw [hpllen]; exact hLlt, ?_, ?_⟩
    · intro b hb
      exact h256 b (List.mem_of_mem_drop (List.mem_of_mem_take hb))
    · intro b hb
      exact h256 b
        (List.mem_of_mem_drop
          (List.mem_of_mem_take (List.mem_of_mem_drop hb)))
  refine ⟨hwfc, ?_⟩
  have hA : (data.drop offset).take 4 = encodeBE32 (readBE32 data offset) := by
    rw [take_four_eq _ (by rw [List.length_drop]; omega)]
    rw [getD_drop', getD_drop', getD_drop', getD_drop', Nat.add_zero]
    rw [hLdef, encodeBE32_beUint32 _ _ _ _ hd0 hd1 hd2 hd3]
  have hc0 : data.getD (offset + 8 + readBE32 data offset) 0 < 256 :=
    getD_lt_of_all data h256 _ (by omega)
  have hc1 : data.getD (offset + 8 + readBE32 data offset + 1) 0 < 256 :=
    getD_lt_of_all data h256 _ (by omega)
  have hc2 : data.getD (offset + 8 + readBE32 data offset + 2) 0 < 256 :=
    getD_lt_of_all data h256 _ (by omega)
  have hc3 : data.getD (offset + 8 + readBE32 data offset + 3) 0 < 256 :=
    getD_lt_of_all data h256 _ (by omega)
  have hC : (data.drop (offset + 8 + readBE32 data offset)).take 4 =
      encodeBE32 (crc32 ((data.drop (offset + 4)).take
        (4 + readBE32 data offset))) := by
    rw [take_four_eq _ (by rw [List.length_drop]; omega)]
    rw [getD_drop', getD_drop', getD_drop', getD_drop', Nat.add_zero]
    rw [← hcrcval]
    have hstored : readBE32 data (offset + 8 + readBE32 data offset) =
        beUint32 (data.getD (offset + 8 + readBE32 data offset) 0)
          (data.getD (offset + 8 + readBE32 data offset + 1) 0)
          (data.getD (offset + 8 + readBE32 data offset + 2) 0)
          (data.getD (offset + 8 + readBE32 data offset + 3) 0) := rfl
    rw [hstored, encodeBE32_beUint32 _ _ _ _ hc0 hc1 hc2 hc3]
  have henc : encodeChunk ⟨(data.drop (offset + 4)).take 4,
      ((data.drop (offset + 4)).take (4 + readBE32 data offset)).drop 4⟩ =
      encodeBE32 (readBE32 data offset) ++
        ((data.drop (offset + 4)).take (4 + readBE32 data offset) ++
          encodeBE32 (crc32 ((data.drop (offset + 4)).take
            (4 + readBE32 data offset)))) := by
    show encodeBE32 ((((data.drop (offset + 4)).take
        (4 + readBE32 data offset)).drop 4).length) ++
        (data.drop (offset + 4)).take 4 ++
        ((data.drop (offset + 4)).take (4 + readBE32 data offset)).drop 4 ++
        encodeBE32 (crc32 ((data.drop (offset + 4)).take 4 ++
          ((data.drop (offset + 4)).take (4 + readBE32 data offset)).drop 4)) =
      _
    rw [hpllen, List.append_assoc, List.append_assoc,
      ← List.append_assoc ((data.drop (offset + 4)).take 4), hcdsplit]
  have key : data.drop offset =
      ((data.drop offset).take 4 ++
        ((data.drop (offset + 4)).take (4 + readBE32 data offset) ++
          (data.drop (offset + 8 + readBE32 data offset)).take 4)) ++
        data.drop (offset + (12 + readBE32 data offset)) := by
    conv_lhs =>
      rw [← List.take_append_drop (12 + readBE32 data offset) (data.drop offset)]
    rw [List.drop_drop]
    rw [show offset + (12 + readBE32 data offset) =
      offset + (12 + readBE32 data offset) from rfl]
    congr 1
    rw [show 12 + readBE32 data offset =
      4 + ((4 + readBE32 data offset) + 4) by omega]
    rw [List.take_add, List.take_add, List.drop_drop, List.drop_drop]
    rw [show offset + 4 + (4 + readBE32 data offset) =
      offset + 8 + readBE32 data offset by omega]
  rw [key, henc, hA, hC]

theorem stripLoop_ok_decomp (fuel : Nat) :
    ∀ (data : List Nat) (offset : Nat) (output out' : List Nat)
      (result res' : Result),
      (∀ b ∈ data, b < 256) →
      data.length ≤ offset + 12 * fuel →
      offset ≤ data.length →
      stripLoop data fuel offset output result = .ok (out', res') →
      ∃ cs : List Chunk, (∀ c ∈ cs, ChunkWF c) ∧
        data.drop offset = encodeChunks cs ∧
        out' = output ++
          encodeChunks (cs.filter fun c => shouldKeepChunk c.ctype) ∧
        res' = accumStats result cs := by
  induction fuel with
  | zero =>
    intro data offset output out' result res' h256 hf ho h
    rw [stripLoop_exit data 0 offset output result (by omega)] at h
    simp only [Except.ok.injEq, Prod.mk.injEq] at h
    obtain ⟨h1, h2⟩ := h
    refine ⟨[], by simp, ?_, ?_, ?_⟩
    · rw [List.drop_eq_nil_of_le (by omega), encodeChunks_nil]
    · rw [← h1, List.filter_nil, encodeChunks_nil, List.append_nil]
    · rw [← h2, accumStats_nil]
  | succ fuel ih =>
    intro data offset output out' result res' h256 hf ho h
    by_cases hlt : offset < data.length
    case neg =>
      rw [stripLoop_exit data _ offset output result (by omega)] at h
      simp only [Except.ok.injEq, Prod.mk.injEq] at h
      obtain ⟨h1, h2⟩ := h
      refine ⟨[], by simp, ?_, ?_, ?_⟩
      · rw [List.drop_eq_nil_of_le (by omega), encodeChunks_nil]
      · rw [← h1, List.filter_nil, encodeChunks_nil, List.append_nil]
      · rw [← h2, accumStats_nil]
    case pos =>
      rw [stripLoop, if_pos hlt] at h
      by_cases hg8 : data.length < offset + 8
      · rw [if_pos hg8] at h; simp at h
      · rw [if_neg hg8] at h
        simp only [] at h
        by_cases hgb : data.length < offset + 12 + readBE32 data offset
        · rw [if_pos hgb] at h; simp at h
        · rw [if_neg hgb] at h
          by_cases hgc : readBE32 data (offset + 8 + readBE32 data offset) ≠
              crc32 ((data.drop (offset + 4)).take (4 + readBE32 data offset))
          · rw [if_pos hgc] at h; simp at h
          · rw [if_neg hgc] at h
            have hcrcval := not_ne_iff.mp hgc
            obtain ⟨hwfc, hdec⟩ :=
              chunk_surgery data offset h256 (by omega) (by omega) hcrcval
            have hlenc : (encodeChunk ⟨(data.drop (offset + 4)).take 4,
                ((data.drop (offset + 4)).take
                  (4 + readBE32 data offset)).drop 4⟩).length =
                12 + readBE32 data offset := by
              rw [length_encodeChunk _ hwfc.1]
              show 12 + (((data.drop (offset + 4)).take
                (4 + readBE32 data offset)).drop 4).length = _
              rw [List.length_drop, List.length_take, List.length_drop]
              omega
            have hslice : (data.drop offset).take (12 + readBE32 data offset) =
                encodeChunk ⟨(data.drop (offset + 4)).take 4,
                  ((data.drop (offset + 4)).take
                    (4 + readBE32 data offset)).drop 4⟩ := by
              rw [hdec]
              exact List.take_left' hlenc
            by_cases hk : shouldKeepChunk ((data.drop (offset + 4)).take 4)
            · rw [if_pos hk] at h
              obtain ⟨cs', hwf', hdrop', hout', hres'⟩ :=
                ih data (offset + (12 + readBE32 data offset)) _ _ _ _ h256
                  (by omega) (by omega) h
              refine ⟨⟨(data.drop (offset + 4)).take 4,
                ((data.drop (offset + 4)).take
                  (4 + readBE32 data offset)).drop 4⟩ :: cs', ?_, ?_, ?_, ?_⟩
              · intro x hx
                rcases List.mem_cons.mp hx with hx | hx
                · rw [hx]; exact hwfc
                · exact hwf' x hx
              · rw [encodeChunks_cons, hdec, hdrop']
              · rw [hout', hslice]
                simp [List.filter_cons, hk, encodeChunks_cons,
                  List.append_assoc]
              · rw [hres', accumStats_cons, if_pos hk]
            · rw [if_neg hk] at h
              obtain ⟨cs', hwf', hdrop', hout', hres'⟩ :=
                ih data (offset + (12 + readBE32 data offset)) _ _ _ _ h256
                  (by omega) (by omega) h
              refine ⟨⟨(data.drop (offset + 4)).take 4,
                ((data.drop (offset + 4)).take
                  (4 + readBE32 data offset)).drop 4⟩ :: cs', ?_, ?_, ?_, ?_⟩
              · intro x hx
                rcases List.mem_cons.mp hx with hx | hx
                · rw [hx]; exact hwfc
                · exact hwf' x hx
              · rw [encodeChunks_cons, hdec, hdrop']
              · rw [hout']
                simp [List.filter_cons, hk]
              · rw [hres', accumStats_cons, if_neg hk]
                have hpl : (((data.drop (offset + 4)).take
                    (4 + readBE32 data offset)).drop 4).length =
                    readBE32 data offset := by
                  rw [List.length_drop, List.length_take, List.length_drop]
                  omega
                simp only [hpl]

theorem PngMetaWebStrip_ok_decomp (data out : List Nat) (res : Result)
    (h256 : ∀ b ∈ data, b < 256)
    (h : PngMetaWebStrip data = .ok (out, res)) :
    ∃ cs : List Chunk, (∀ c ∈ cs, ChunkWF c) ∧
      data = encodePng cs ∧
      out = pngSignature ++
        encodeChunks (cs.filter fun c => shouldKeepChunk c.ctype) ∧
      res = accumStats Result.init cs := by
  unfold PngMetaWebStrip at h
  by_cases h8 : data.length < 8
  · rw [if_pos h8] at h; simp at h
  · rw [if_neg h8] at h
    by_cases hsig : data.take 8 ≠ pngSignature
    · rw [if_pos hsig] at h; simp at h
    · rw [if_neg hsig] at h
      have hsig' := not_ne_iff.mp hsig
      obtain ⟨cs, hwf, hdrop, hout, hres⟩ :=
        stripLoop_ok_decomp data.length data 8 pngSignature out Result.init
          res h256 (by omega) (by omega) h
      refine ⟨cs, hwf, ?_, hout, hres⟩
      conv_lhs => rw [← List.take_append_drop 8 data]
      rw [hsig', hdrop]
      rfl

theorem accumStats_keep (cs : List Chunk)
    (h : ∀ c ∈ cs, shouldKeepChunk c.ctype = true) :
    ∀ r : Result, accumStats r cs = r := by
  induction cs with
  | nil => intro r; rfl
  | cons c cs ih =>
    intro r
    rw [accumStats_cons, if_pos (h c (List.mem_cons_self c cs))]
    exact ih (fun x hx => h x (List.mem_cons_of_mem c hx)) r

theorem filter_keep_idem (cs : List Chunk) :
    ((cs.filter fun c => shouldKeepChunk c.ctype).filter
      fun c => shouldKeepChunk c.ctype) =
      cs.filter fun c => shouldKeepChunk c.ctype := by
  exact List.filter_eq_self.mpr fun a ha => (List.mem_filter.mp ha).2

theorem getD_append_left' (l₁ l₂ : List Nat) (i : Nat) (hi : i < l₁.length) :
    (l₁ ++ l₂).getD i 0 = l₁.getD i 0 := by
  rw [List.getD_eq_getElem?_getD, List.getD_eq_getElem?_getD,
    List.getElem?_append_left hi]

theorem stripLoop_flip_step (c : Chunk) (hc : ChunkWF c)
    (pre rest output : List Nat) (result : Result) (k j fuel : Nat)
    (hk : k < 4 + c.payload.length) (hj : j < 8) :
    ∃ t o, stripLoop
      (pre ++ ((encodeChunk c).set (4 + k)
        ((encodeChunk c).getD (4 + k) 0 ^^^ 2 ^ j) ++ rest)) (fuel + 1)
      pre.length output result = .error (.invalidCRC t o) := by
  obtain ⟨ht4, hplt, htb, hpb⟩ := hc
  have hlenc : (encodeChunk c).length = 12 + c.payload.length :=
    length_encodeChunk c ht4
  have hcdlen : (c.ctype ++ c.payload).length = 4 + c.payload.length := by
    rw [List.length_append, ht4]
  have hcrclt : crc32 (c.ctype ++ c.payload) < 2 ^ 32 := by
    refine crc32_lt _ fun b hb => ?_
    rcases List.mem_append.mp hb with h | h
    · exact htb b h
    · exact hpb b h
  have hdlt : (2 : Nat) ^ j ≠ 0 := by positivity
  have hdlt2 : (2 : Nat) ^ j < 2 ^ 32 := by
    calc (2 : Nat) ^ j ≤ 2 ^ 7 := Nat.pow_le_pow_right (by omega) (by omega)
    _ < 2 ^ 32 := by omega
  -- the flipped byte is inside type ++ payload
  have hsplit1 : encodeChunk c = encodeBE32 c.payload.length ++
      ((c.ctype ++ c.payload) ++
        encodeBE32 (crc32 (c.ctype ++ c.payload))) := by
    unfold encodeChunk
    rw [List.append_assoc (encodeBE32 c.payload.length) c.ctype c.payload,
      List.append_assoc]
  have hgetv : (encodeChunk c).getD (4 + k) 0 =
      (c.ctype ++ c.payload).getD k 0 := by
    rw [hsplit1]
    rw [show (4 : Nat) + k = (encodeBE32 c.payload.length).length + k by
      rw [length_encodeBE32]]
    rw [getD_append_right']
    rw [getD_append_left' _ _ k (by omega)]
  have hmod : (encodeChunk c).set (4 + k)
      ((encodeChunk c).getD (4 + k) 0 ^^^ 2 ^ j) =
      encodeBE32 c.payload.length ++
        (((c.ctype ++ c.payload).set k
          ((c.ctype ++ c.payload).getD k 0 ^^^ 2 ^ j)) ++
          encodeBE32 (crc32 (c.ctype ++ c.payload))) := by
    rw [hgetv, hsplit1]
    rw [List.set_append_right _ _ (by rw [length_encodeBE32]; omega)]
    rw [length_encodeBE32, show (4 : Nat) + k - 4 = k by omega]
    rw [List.set_append_left _ _ (by omega)]
  set cdmod := (c.ctype ++ c.payload).set k
    ((c.ctype ++ c.payload).getD k 0 ^^^ 2 ^ j) with hcdmod
  have hmodlen : cdmod.length = 4 + c.payload.length := by
    rw [hcdmod, List.length_set, hcdlen]
  have hcrcne : crc32 cdmod ≠ crc32 (c.ctype ++ c.payload) := by
    rw [hcdmod]
    exact crc32_set_ne _ k _ (by omega) hdlt hdlt2
  -- the data in convenient shapes
  have hdata : pre ++ ((encodeChunk c).set (4 + k)
      ((encodeChunk c).getD (4 + k) 0 ^^^ 2 ^ j) ++ rest) =
      pre ++ ((c.payload.length / 2 ^ 24 % 256) ::
        (c.payload.length / 2 ^ 16 % 256) :: (c.payload.length / 2 ^ 8 % 256) ::
        (c.payload.length % 256) ::
        (cdmod ++ (encodeBE32 (crc32 (c.ctype ++ c.payload)) ++ rest))) := by
    rw [hmod]
    simp [encodeBE32, List.append_assoc]
  have hdl : (pre ++ ((encodeChunk c).set (4 + k)
      ((encodeChunk c).getD (4 + k) 0 ^^^ 2 ^ j) ++ rest)).length =
      pre.length + ((12 + c.payload.length) + rest.length) := by
    rw [List.length_append, List.length_append, List.length_set, hlenc]
  have hread : readBE32 (pre ++ ((encodeChunk c).set (4 + k)
      ((encodeChunk c).getD (4 + k) 0 ^^^ 2 ^ j) ++ rest)) pre.length =
      c.payload.length := by
    rw [hdata, readBE32_at]
    exact beUint32_encodeBE32 _ hplt
  have hct : ((pre ++ ((encodeChunk c).set (4 + k)
      ((encodeChunk c).getD (4 + k) 0 ^^^ 2 ^ j) ++ rest)).drop
        (pre.length + 4)).take (4 + c.payload.length) = cdmod := by
    rw [hdata, List.drop_append]
    show (cdmod ++ (encodeBE32 (crc32 (c.ctype ++ c.payload)) ++ rest)).take
      (4 + c.payload.length) = cdmod
    exact List.take_left' hmodlen
  have hplen2 : (pre ++ (encodeBE32 c.payload.length ++ cdmod)).length =
      pre.length + 8 + c.payload.length := by
    rw [List.length_append, List.length_append, length_encodeBE32, hmodlen]
    omega
  have hassoc2 : pre ++ ((encodeChunk c).set (4 + k)
      ((encodeChunk c).getD (4 + k) 0 ^^^ 2 ^ j) ++ rest) =
      (pre ++ (encodeBE32 c.payload.length ++ cdmod)) ++
        ((crc32 (c.ctype ++ c.payload) / 2 ^ 24 % 256) ::
          (crc32 (c.ctype ++ c.payload) / 2 ^ 16 % 256) ::
          (crc32 (c.ctype ++ c.payload) / 2 ^ 8 % 256) ::
          (crc32 (c.ctype ++ c.payload) % 256) :: rest) := by
    rw [hmod]
    simp [encodeBE32, List.append_assoc]
  have hcrcstored : readBE32 (pre ++ ((encodeChunk c).set (4 + k)
      ((encodeChunk c).getD (4 + k) 0 ^^^ 2 ^ j) ++ rest))
      (pre.length + 8 + c.payload.length) = crc32 (c.ctype ++ c.payload) := by
    rw [hassoc2, ← hplen2, readBE32_at]
    exact beUint32_encodeBE32 _ hcrclt
  refine ⟨((pre ++ ((encodeChunk c).set (4 + k)
      ((encodeChunk c).getD (4 + k) 0 ^^^ 2 ^ j) ++ rest)).drop
        (pre.length + 4)).take 4, pre.length, ?_⟩
  rw [stripLoop, if_pos (by rw [hdl]; omega)]
  show (if (pre ++ ((encodeChunk c).set (4 + k)
      ((encodeChunk c).getD (4 + k) 0 ^^^ 2 ^ j) ++ rest)).length <
      pre.length + 8 then _ else _) = _
  rw [if_neg (by rw [hdl]; omega)]
  simp only [hread, hct]
  rw [if_neg (by rw [hdl]; omega : ¬((pre ++ ((encodeChunk c).set (4 + k)
    ((encodeChunk c).getD (4 + k) 0 ^^^ 2 ^ j) ++ rest)).length <
    pre.length + 12 + c.payload.length))]
  rw [hcrcstored]
  rw [if_pos (fun heq => hcrcne heq.symm)]

theorem stripLoop_flip (cs : List Chunk) :
    ∀ (i : Nat) (hi : i < cs.length) (k j : Nat) (pre output : List Nat)
      (result : Result) (fuel : Nat),
      (∀ c ∈ cs, ChunkWF c) →
      k < 4 + (cs.get ⟨i, hi⟩).payload.length →
      j < 8 →
      cs.length ≤ fuel →
      ∃ t o, stripLoop
        (pre ++ (encodeChunks cs).set
          ((encodeChunks (cs.take i)).length + 4 + k)
          ((encodeChunks cs).getD
            ((encodeChunks (cs.take i)).length + 4 + k) 0 ^^^ 2 ^ j))
        fuel pre.length output result = .error (.invalidCRC t o) := by
  induction cs with
  | nil => intro i hi; simp at hi
  | cons c cs ih =>
    intro i hi k j pre output result fuel hwf hk hj hfuel
    have hwfc : ChunkWF c := hwf c (List.mem_cons_self c cs)
    have hlenc : (encodeChunk c).length = 12 + c.payload.length :=
      length_encodeChunk c hwfc.1
    match fuel, hfuel with
    | fuel + 1, hfuel =>
      match i, hi, hk with
      | 0, hi, hk =>
        have hk0 : k < 4 + c.payload.length := hk
        simp only [List.take_zero, encodeChunks_nil, List.length_nil,
          Nat.zero_add]
        rw [encodeChunks_cons]
        rw [List.set_append_left (4 + k) _ (by rw [hlenc]; omega)]
        rw [getD_append_left' (encodeChunk c) (encodeChunks cs) (4 + k)
          (by rw [hlenc]; omega)]
        exact stripLoop_flip_step c hwfc pre (encodeChunks cs) output result
          k j fuel hk0 hj
      | i + 1, hi, hk =>
        have hk' : k < 4 + (cs.get ⟨i, by simpa using hi⟩).payload.length := by
          rw [List.get_cons_succ] at hk
          exact hk
        rw [List.take_succ_cons, encodeChunks_cons, encodeChunks_cons]
        have hpos : (encodeChunk c ++ encodeChunks (cs.take i)).length + 4 + k =
            (encodeChunk c).length +
              ((encodeChunks (cs.take i)).length + 4 + k) := by
          rw [List.length_append]
          omega
        rw [hpos]
        rw [List.set_append_right _ _ (by omega), Nat.add_sub_cancel_left,
          getD_append_right']
        rw [stripLoop_step c hwfc pre _ output result fuel]
        have hoff : pre.length + (12 + c.payload.length) =
            (pre ++ encodeChunk c).length := by
          rw [List.length_append, hlenc]
        rw [hoff, ← List.append_assoc]
        exact ih i (by simpa using hi) k j (pre ++ encodeChunk c) _ _ fuel
          (fun x hx => hwf x (List.mem_cons_of_mem c hx)) hk' hj
          (by simp at hfuel; omega)

theorem encodeChunks_append (a b : List Chunk) :
    encodeChunks (a ++ b) = encodeChunks a ++ encodeChunks b := by
  simp [encodeChunks]

theorem stripLoop_trunc (cs₁ : List Chunk) :
    ∀ (c : Chunk) (cs₂ : List Chunk) (r : Nat) (pre output : List Nat)
      (result : Result) (fuel : Nat),
      (∀ x ∈ cs₁, ChunkWF x) → ChunkWF c →
      0 < r → r < 12 + c.payload.length →
      cs₁.length < fuel →
      ∃ e, stripLoop (pre ++ (encodeChunks (cs₁ ++ c :: cs₂)).take
          ((encodeChunks cs₁).length + r)) fuel pre.length output result =
        .error e ∧ e.isFormatError = true := by
  induction cs₁ with
  | nil =>
    intro c cs₂ r pre output result fuel _ hc hr1 hr2 hfuel
    obtain ⟨ht4, hplt, htb, hpb⟩ := hc
    have hlenc : (encodeChunk c).length = 12 + c.payload.length :=
      length_encodeChunk c ht4
    match fuel, hfuel with
    | fuel + 1, _ =>
      simp only [List.nil_append, encodeChunks_cons, encodeChunks_nil,
        List.length_nil, Nat.zero_add]
      rw [List.take_append_of_le_length (by omega)]
      have hdl : (pre ++ (encodeChunk c).take r).length = pre.length + r := by
        rw [List.length_append, List.length_take, hlenc]
        omega
      by_cases hr8 : r < 8
      · refine ⟨.incompleteChunk pre.length, ?_, rfl⟩
        rw [stripLoop, if_pos (by rw [hdl]; omega)]
        show (if (pre ++ (encodeChunk c).take r).length < pre.length + 8
          then _ else _) = _
        rw [if_pos (by rw [hdl]; omega)]
      · refine ⟨.chunkExceedsData pre.length, ?_, rfl⟩
        have hsplit : encodeChunk c = encodeBE32 c.payload.length ++
            (c.ctype ++ (c.payload ++
              encodeBE32 (crc32 (c.ctype ++ c.payload)))) := by
          simp [encodeChunk, List.append_assoc]
        have htake : (encodeChunk c).take r =
            encodeBE32 c.payload.length ++
              ((c.ctype ++ (c.payload ++
                encodeBE32 (crc32 (c.ctype ++ c.payload)))).take (r - 4)) := by
          rw [hsplit, List.take_append_eq_append_take,
            List.take_of_length_le (by rw [length_encodeBE32]; omega),
            length_encodeBE32]
        have hread : readBE32 (pre ++ (encodeChunk c).take r) pre.length =
            c.payload.length := by
          rw [htake]
          rw [show encodeBE32 c.payload.length ++
            ((c.ctype ++ (c.payload ++
              encodeBE32 (crc32 (c.ctype ++ c.payload)))).take (r - 4)) =
            (c.payload.length / 2 ^ 24 % 256) ::
              (c.payload.length / 2 ^ 16 % 256) ::
              (c.payload.length / 2 ^ 8 % 256) :: (c.payload.length % 256) ::
              ((c.ctype ++ (c.payload ++
                encodeBE32 (crc32 (c.ctype ++ c.payload)))).take (r - 4))
            from rfl]
          rw [readBE32_at]
          exact beUint32_encodeBE32 _ hplt
        rw [stripLoop, if_pos (by rw [hdl]; omega)]
        show (if (pre ++ (encodeChunk c).take r).length < pre.length + 8
          then _ else _) = _
        rw [if_neg (by rw [hdl]; omega)]
        simp only [hread]
        rw [if_pos (by rw [hdl]; omega)]
  | cons c₁ cs₁ ih =>
    intro c cs₂ r pre output result fuel hwf hc hr1 hr2 hfuel
    have hwfc₁ : ChunkWF c₁ := hwf c₁ (List.mem_cons_self c₁ cs₁)
    have hlenc₁ : (encodeChunk c₁).length = 12 + c₁.payload.length :=
      length_encodeChunk c₁ hwfc₁.1
    match fuel, hfuel with
    | fuel + 1, hfuel =>
      rw [List.cons_append, encodeChunks_cons, encodeChunks_cons]
      have hpos : (encodeChunk c₁ ++ encodeChunks cs₁).length + r =
          (encodeChunk c₁).length + ((encodeChunks cs₁).length + r) := by
        rw [List.length_append]
        omega
      rw [hpos, List.take_append]
      rw [stripLoop_step c₁ hwfc₁ pre _ output result fuel]
      have hoff : pre.length + (12 + c₁.payload.length) =
          (pre ++ encodeChunk c₁).length := by
        rw [List.length_append, hlenc₁]
      rw [hoff, ← List.append_assoc]
      exact ih c cs₂ r (pre ++ encodeChunk c₁) _ _ fuel
        (fun x hx => hwf x (List.mem_cons_of_mem c₁ hx)) hc hr1 hr2
        (by simp at hfuel; omega)

/-! ### The claims -/

/-- C1: for every input on which `PngMetaWebStrip` succeeds, the input
decomposes as the 8-byte signature followed by well-formed on-wire records
(`encodeChunk` is the verbatim on-wire byte form: length, type, payload,
CRC), and the returned output is exactly the signature followed by the
concatenation, in input order, of the verbatim on-wire bytes of those
records whose type `shouldKeepChunk` maps to `true`. -/
theorem c1_output_is_kept_records (data out : List Nat) (res : Result)
    (h256 : ∀ b ∈ data, b < 256)
    (h : PngMetaWebStrip data = .ok (out, res)) :
    ∃ cs : List Chunk, (∀ c ∈ cs, ChunkWF c) ∧
      data = pngSignature ++ (cs.map encodeChunk).flatten ∧
      out = pngSignature ++
        (((cs.filter fun c => shouldKeepChunk c.ctype).map
          encodeChunk)).flatten := by
  obtain ⟨cs, hwf, hdata, hout, _⟩ :=
    PngMetaWebStrip_ok_decomp data out res h256 h
  exact ⟨cs, hwf, hdata, hout⟩

/-- C2: the policy table maps exactly the eleven listed types to `true`,
and the lookup used for the keep/drop decision returns `false` on every
other type. -/
theorem c2_policy_table :
    essentialList.length = 11 ∧ essentialList.Nodup ∧
      ∀ t : List Nat, shouldKeepChunk t = true ↔ t ∈ essentialList := by
  refine ⟨rfl, by decide, ?_⟩
  intro t
  unfold shouldKeepChunk essentialChunks essentialList
  simp [List.mem_cons, or_assoc]

/-- C3: conservation law — for every input on which `PngMetaWebStrip`
succeeds, the output length plus the returned grand total `res.total`
equals the input length. -/
theorem c3_conservation (data out : List Nat) (res : Result)
    (h : PngMetaWebStrip data = .ok (out, res)) :
    out.length + res.total = data.length := by
  unfold PngMetaWebStrip at h
  by_cases h8 : data.length < 8
  · rw [if_pos h8] at h; simp at h
  · rw [if_neg h8] at h
    by_cases hsig : data.take 8 ≠ pngSignature
    · rw [if_pos hsig] at h; simp at h
    · rw [if_neg hsig] at h
      have hc := stripLoop_conserve data.length data 8 pngSignature out
        Result.init res (by omega) (by omega) h
      have hsl : pngSignature.length = 8 := rfl
      have hti : Result.init.total = 0 := rfl
      rw [hsl, hti] at hc
      omega

/-- C6: idempotence — applying the filter to the output of a successful
run succeeds and returns that output unchanged with zero statistics
(`Result.init` is the all-zero statistics record). -/
theorem c6_idempotent (data out : List Nat) (res : Result)
    (h256 : ∀ b ∈ data, b < 256)
    (h : PngMetaWebStrip data = .ok (out, res)) :
    PngMetaWebStrip out = .ok (out, Result.init) := by
  obtain ⟨cs, hwf, _, hout, _⟩ := PngMetaWebStrip_ok_decomp data out res h256 h
  have hkeptwf : ∀ c ∈ cs.filter fun c => shouldKeepChunk c.ctype, ChunkWF c :=
    fun c hc => hwf c (List.mem_of_mem_filter hc)
  have hrun := PngMetaWebStrip_encode
    (cs.filter fun c => shouldKeepChunk c.ctype) hkeptwf
  rw [filter_keep_idem] at hrun
  have hkeep : ∀ c ∈ cs.filter fun c => shouldKeepChunk c.ctype,
      shouldKeepChunk c.ctype = true := fun c hc => (List.mem_filter.mp hc).2
  rw [accumStats_keep _ hkeep Result.init] at hrun
  rw [hout]
  exact hrun

/-- C7: round-trip identity — for every well-formed container all of whose
records have types in the preserve set, the filter returns the input
byte-for-byte together with the all-zero statistics record. -/
theorem c7_roundtrip (cs : List Chunk) (hwf : ∀ c ∈ cs, ChunkWF c)
    (hkeep : ∀ c ∈ cs, shouldKeepChunk c.ctype = true) :
    PngMetaWebStrip (encodePng cs) = .ok (encodePng cs, Result.init) := by
  rw [PngMetaWebStrip_encode cs hwf, List.filter_eq_self.mpr hkeep,
    accumStats_keep cs hkeep Result.init]
  rfl

/-- C8: statistics bucketing — a dropped record of on-wire size `size`
adds `size` to the grand total and to exactly one category bucket
determined by its type (`tEXt`/`zTXt`/`iTXt` to the text bucket, `tIME`
to the timestamp bucket, `bKGD` to the background bucket, `eXIf` to the
Exif bucket, and every other type to the other bucket), leaving all other
buckets unchanged. -/
theorem c8_buckets (res : Result) (t : List Nat) (size : Nat) :
    (trackRemovedChunk res t size).total = res.total + size ∧
    (trackRemovedChunk res t size).removed.textChunks =
      res.removed.textChunks +
        (if t = ctEXt ∨ t = czTXt ∨ t = ciTXt then size else 0) ∧
    (trackRemovedChunk res t size).removed.timeChunk =
      res.removed.timeChunk + (if t = ctIME then size else 0) ∧
    (trackRemovedChunk res t size).removed.background =
      res.removed.background + (if t = cbKGD then size else 0) ∧
    (trackRemovedChunk res t size).removed.exifData =
      res.removed.exifData + (if t = ceXIf then size else 0) ∧
    (trackRemovedChunk res t size).removed.otherChunks =
      res.removed.otherChunks +
        (if ¬(t = ctEXt ∨ t = czTXt ∨ t = ciTXt) ∧ t ≠ ctIME ∧ t ≠ cbKGD ∧
            t ≠ ceXIf then size else 0) := by
  unfold trackRemovedChunk
  split_ifs <;> simp_all [ctEXt, czTXt, ciTXt, ctIME, cbKGD, ceXIf]

/-- C4: checksum enforcement — take any well-formed container (the
structural form `encodePng cs`, which by C1 covers every byte-level
container the filter accepts) and flip one bit (`xor` with `2 ^ j`,
`j < 8`) of any byte lying inside record `i`'s type or payload region
(byte index `chunkStart cs i + 4 + k` with `k < 4 + payload length`,
which leaves the record's stored checksum untouched).  Then
`PngMetaWebStrip` fails with the checksum-mismatch error — the
`IntegrityError` of the spec's taxonomy — and returns no output. -/
theorem c4_bitflip_integrity (cs : List Chunk) (hwf : ∀ c ∈ cs, ChunkWF c)
    (i : Nat) (hi : i < cs.length) (k : Nat)
    (hk : k < 4 + (cs.get ⟨i, hi⟩).payload.length) (j : Nat) (hj : j < 8) :
    ∃ t o, PngMetaWebStrip ((encodePng cs).set (chunkStart cs i + 4 + k)
        ((encodePng cs).getD (chunkStart cs i + 4 + k) 0 ^^^ 2 ^ j)) =
      .error (.invalidCRC t o) ∧
      PngError.isIntegrityError (.invalidCRC t o) = true := by
  have hsl : pngSignature.length = 8 := rfl
  have hstart : chunkStart cs i + 4 + k =
      pngSignature.length + ((encodeChunks (cs.take i)).length + 4 + k) := by
    unfold chunkStart
    rw [hsl]
    omega
  have hsetdist : (encodePng cs).set (chunkStart cs i + 4 + k)
      ((encodePng cs).getD (chunkStart cs i + 4 + k) 0 ^^^ 2 ^ j) =
      pngSignature ++ (encodeChunks cs).set
        ((encodeChunks (cs.take i)).length + 4 + k)
        ((encodeChunks cs).getD
          ((encodeChunks (cs.take i)).length + 4 + k) 0 ^^^ 2 ^ j) := by
    show (pngSignature ++ encodeChunks cs).set _
      ((pngSignature ++ encodeChunks cs).getD _ 0 ^^^ _) = _
    rw [hstart, List.set_append_right _ _ (by omega),
      Nat.add_sub_cancel_left, getD_append_right']
  rw [hsetdist]
  have hmlen : (pngSignature ++ (encodeChunks cs).set
      ((encodeChunks (cs.take i)).length + 4 + k)
      ((encodeChunks cs).getD
        ((encodeChunks (cs.take i)).length + 4 + k) 0 ^^^ 2 ^ j)).length =
      8 + (encodeChunks cs).length := by
    rw [List.length_append, hsl, List.length_set]
  unfold PngMetaWebStrip
  rw [if_neg (by rw [hmlen]; omega)]
  rw [if_neg (by
    rw [List.take_append_of_le_length (by rw [hsl]),
      List.take_of_length_le (by rw [hsl])]
    simp)]
  obtain ⟨t, o, hrun⟩ := stripLoop_flip cs i hi k j pngSignature pngSignature
    Result.init (pngSignature ++ (encodeChunks cs).set
      ((encodeChunks (cs.take i)).length + 4 + k)
      ((encodeChunks cs).getD
        ((encodeChunks (cs.take i)).length + 4 + k) 0 ^^^ 2 ^ j)).length
    hwf hk hj
    (by rw [hmlen]; have := length_le_length_encodeChunks cs; omega)
  refine ⟨t, o, ?_, rfl⟩
  rw [show (8 : Nat) = pngSignature.length from rfl]
  exact hrun

/-- C5: bounds safety — (1) whenever the loop reaches an offset with fewer
than 8 bytes remaining, it fails with the incomplete-record format error
before reading any record field; (2) whenever the declared length makes
`offset + 12 + length` exceed the input, it fails with the
out-of-bounds format error before the type, payload, or checksum of that
record is sliced (in the embedding, both errors are returned by guards
that precede every slice of the record); (3) truncating a well-formed
container anywhere strictly inside a record body yields a format error. -/
theorem c5_bounds_safety :
    (∀ (data : List Nat) (fuel offset : Nat) (output : List Nat)
      (result : Result), offset < data.length → data.length < offset + 8 →
      stripLoop data (fuel + 1) offset output result =
        .error (.incompleteChunk offset) ∧
        PngError.isFormatError (.incompleteChunk offset) = true) ∧
    (∀ (data : List Nat) (fuel offset : Nat) (output : List Nat)
      (result : Result), offset < data.length → offset + 8 ≤ data.length →
      data.length < offset + 12 + readBE32 data offset →
      stripLoop data (fuel + 1) offset output result =
        .error (.chunkExceedsData offset) ∧
        PngError.isFormatError (.chunkExceedsData offset) = true) ∧
    (∀ (cs₁ : List Chunk) (c : Chunk) (cs₂ : List Chunk) (r : Nat),
      (∀ x ∈ cs₁ ++ c :: cs₂, ChunkWF x) → 0 < r →
      r < 12 + c.payload.length →
      ∃ e, PngMetaWebStrip ((encodePng (cs₁ ++ c :: cs₂)).take
          (8 + ((encodeChunks cs₁).length + r))) = .error e ∧
        e.isFormatError = true) := by
  refine ⟨?_, ?_, ?_⟩
  · intro data fuel offset output result h1 h2
    refine ⟨?_, rfl⟩
    rw [stripLoop, if_pos h1]
    show (if data.length < offset + 8 then _ else _) = _
    rw [if_pos h2]
  · intro data fuel offset output result h1 h2 h3
    refine ⟨?_, rfl⟩
    rw [stripLoop, if_pos h1]
    show (if data.length < offset + 8 then _ else _) = _
    rw [if_neg (by omega)]
    simp only []
    rw [if_pos h3]
  · intro cs₁ c cs₂ r hwf hr1 hr2
    have hwf₁ : ∀ x ∈ cs₁, ChunkWF x := fun x hx =>
      hwf x (List.mem_append_left _ hx)
    have hwfc : ChunkWF c :=
      hwf c (List.mem_append_right _ (List.mem_cons_self c cs₂))
    have hsl : pngSignature.length = 8 := rfl
    have htake : (encodePng (cs₁ ++ c :: cs₂)).take
        (8 + ((encodeChunks cs₁).length + r)) =
        pngSignature ++ (encodeChunks (cs₁ ++ c :: cs₂)).take
          ((encodeChunks cs₁).length + r) := by
      show (pngSignature ++ encodeChunks (cs₁ ++ c :: cs₂)).take _ = _
      rw [show 8 + ((encodeChunks cs₁).length + r) =
        pngSignature.length + ((encodeChunks cs₁).length + r) from rfl]
      rw [List.take_append]
    rw [htake]
    have henclen : (encodeChunks (cs₁ ++ c :: cs₂)).length =
        (encodeChunks cs₁).length + (encodeChunk c).length +
          (encodeChunks cs₂).length := by
      rw [encodeChunks_append, encodeChunks_cons, List.length_append,
        List.length_append]
      omega
    have hlenc : (encodeChunk c).length = 12 + c.payload.length :=
      length_encodeChunk c hwfc.1
    have hcs₁ : cs₁.length ≤ (encodeChunks cs₁).length :=
      length_le_length_encodeChunks cs₁
    have hdl : (pngSignature ++ (encodeChunks (cs₁ ++ c :: cs₂)).take
        ((encodeChunks cs₁).length + r)).length =
        8 + ((encodeChunks cs₁).length + r) := by
      rw [List.length_append, hsl, List.length_take, henclen]
      omega
    unfold PngMetaWebStrip
    rw [if_neg (by rw [hdl]; omega)]
    rw [if_neg (by
      rw [List.take_append_of_le_length (by rw [hsl]),
        List.take_of_length_le (by rw [hsl])]
      simp)]
    obtain ⟨e, hrun, hfmt⟩ := stripLoop_trunc cs₁ c cs₂ r pngSignature
      pngSignature Result.init
      (pngSignature ++ (encodeChunks (cs₁ ++ c :: cs₂)).take
        ((encodeChunks cs₁).length + r)).length
      hwf₁ hwfc hr1 hr2 (by rw [hdl]; omega)
    refine ⟨e, ?_, hfmt⟩
    rw [show (8 : Nat) = pngSignature.length from rfl]
    exact hrun

/-- C5 witness: concrete instances of the three parts — a container with
2 stray bytes after the signature (incomplete record header), a container
whose single record declares length 99 but is 12 bytes long (record
exceeds bounds), and a valid one-record container truncated 5 bytes into
the record. -/
theorem c5_bounds_safety_witness :
    (stripLoop [137, 80, 78, 71, 13, 10, 26, 10, 0, 0] 3 8 [] Result.init =
      .error (.incompleteChunk 8) ∧
      PngError.isFormatError (.incompleteChunk 8) = true) ∧
    (stripLoop [137, 80, 78, 71, 13, 10, 26, 10, 0, 0, 0, 99, 65, 65, 65, 65,
        0, 0, 0, 0] 3 8 [] Result.init = .error (.chunkExceedsData 8) ∧
      PngError.isFormatError (.chunkExceedsData 8) = true) ∧
    ∃ e, PngMetaWebStrip ((encodePng ([] ++ ⟨cIHDR, []⟩ :: [])).take
        (8 + ((encodeChunks []).length + 5))) = .error e ∧
      e.isFormatError = true :=
  ⟨c5_bounds_safety.1 [137, 80, 78, 71, 13, 10, 26, 10, 0, 0] 2 8 []
      Result.init (by decide) (by decide),
    c5_bounds_safety.2.1 [137, 80, 78, 71, 13, 10, 26, 10, 0, 0, 0, 99, 65,
      65, 65, 65, 0, 0, 0, 0] 2 8 [] Result.init (by decide) (by decide)
      (by decide),
    c5_bounds_safety.2.2 [] ⟨cIHDR, []⟩ [] 5 (by decide) (by decide)
      (by decide)⟩

/-- C9: signature rejection — an input shorter than 8 bytes fails with the
too-short error, and an input of length at least 8 whose first 8 bytes
are not the PNG signature fails with the invalid-signature error; both
are format errors, and no output or statistics are produced. -/
theorem c9_signature_rejection (data : List Nat) :
    (data.length < 8 → PngMetaWebStrip data = .error .dataTooShort) ∧
    (8 ≤ data.length → data.take 8 ≠ pngSignature →
      PngMetaWebStrip data = .error .invalidSignature) ∧
    PngError.isFormatError .dataTooShort = true ∧
    PngError.isFormatError .invalidSignature = true := by
  refine ⟨?_, ?_, rfl, rfl⟩
  · intro h
    unfold PngMetaWebStrip
    rw [if_pos h]
  · intro h1 h2
    unfold PngMetaWebStrip
    rw [if_neg (by omega), if_pos h2]

/-- C9 witness: the three concrete rejections named by the spec — the
empty input, a 3-byte input, and 8 zero bytes. -/
theorem c9_signature_rejection_witness :
    PngMetaWebStrip [] = .error .dataTooShort ∧
    PngMetaWebStrip [1, 2, 3] = .error .dataTooShort ∧
    PngMetaWebStrip [0, 0, 0, 0, 0, 0, 0, 0] = .error .invalidSignature :=
  ⟨(c9_signature_rejection []).1 (by decide),
    (c9_signature_rejection [1, 2, 3]).1 (by decide),
    (c9_signature_rejection [0, 0, 0, 0, 0, 0, 0, 0]).2.1 (by decide)
      (by decide)⟩

/-- C10: the input consisting of exactly the 8-byte signature succeeds,
returning the input unchanged and a statistics record whose grand total
and every category bucket are 0. -/
theorem c10_signature_only :
    PngMetaWebStrip pngSignature = .ok (pngSignature, ⟨⟨0, 0, 0, 0, 0⟩, 0⟩) :=
  by decide

/-- C1 witness: a container holding an IHDR record and a tEXt record; the
filter keeps the IHDR record verbatim and drops the tEXt record. -/
theorem c1_output_is_kept_records_witness :
    ∃ cs : List Chunk, (∀ c ∈ cs, ChunkWF c) ∧
      encodePng [⟨cIHDR, []⟩, ⟨ctEXt, [1]⟩] =
        pngSignature ++ (cs.map encodeChunk).flatten ∧
      encodePng [⟨cIHDR, []⟩] = pngSignature ++
        (((cs.filter fun c => shouldKeepChunk c.ctype).map
          encodeChunk)).flatten :=
  c1_output_is_kept_records (encodePng [⟨cIHDR, []⟩, ⟨ctEXt, [1]⟩])
    (encodePng [⟨cIHDR, []⟩]) ⟨⟨13, 0, 0, 0, 0⟩, 13⟩ (by decide) (by decide)

/-- C3 witness: on the same container, output length 20 plus total 13
equals input length 33. -/
theorem c3_conservation_witness :
    (encodePng [⟨cIHDR, []⟩]).length +
      (Result.mk ⟨13, 0, 0, 0, 0⟩ 13).total =
      (encodePng [⟨cIHDR, []⟩, ⟨ctEXt, [1]⟩]).length :=
  c3_conservation (encodePng [⟨cIHDR, []⟩, ⟨ctEXt, [1]⟩])
    (encodePng [⟨cIHDR, []⟩]) ⟨⟨13, 0, 0, 0, 0⟩, 13⟩ (by decide)

/-- C4 witness: flipping the lowest bit of the first type byte of the
single IHDR record makes the filter fail with the CRC mismatch error. -/
theorem c4_bitflip_integrity_witness :
    ∃ t o, PngMetaWebStrip ((encodePng [⟨cIHDR, []⟩]).set
        (chunkStart [⟨cIHDR, []⟩] 0 + 4 + 0)
        ((encodePng [⟨cIHDR, []⟩]).getD
          (chunkStart [⟨cIHDR, []⟩] 0 + 4 + 0) 0 ^^^ 2 ^ 0)) =
      .error (.invalidCRC t o) ∧
      PngError.isIntegrityError (.invalidCRC t o) = true :=
  c4_bitflip_integrity [⟨cIHDR, []⟩] (by decide) 0 (by decide) 0 (by decide)
    0 (by decide)

/-- C6 witness: filtering the output of the C1/C3 witness run again is the
identity with all-zero statistics. -/
theorem c6_idempotent_witness :
    PngMetaWebStrip (encodePng [⟨cIHDR, []⟩]) =
      .ok (encodePng [⟨cIHDR, []⟩], Result.init) :=
  c6_idempotent (encodePng [⟨cIHDR, []⟩, ⟨ctEXt, [1]⟩])
    (encodePng [⟨cIHDR, []⟩]) ⟨⟨13, 0, 0, 0, 0⟩, 13⟩ (by decide) (by decide)

/-- C7 witness: a container holding only IHDR and IEND records (both in
the preserve set) round-trips byte-for-byte with zero statistics. -/
theorem c7_roundtrip_witness :
    PngMetaWebStrip (encodePng [⟨cIHDR, []⟩, ⟨cIEND, []⟩]) =
      .ok (encodePng [⟨cIHDR, []⟩, ⟨cIEND, []⟩], Result.init) :=
  c7_roundtrip [⟨cIHDR, []⟩, ⟨cIEND, []⟩] (by decide) (by decide)

example : crc32 cIHDR = 2829168138 := by decide
example : crc32 ctEXt = 2520958341 := by decide
example : encodeChunk ⟨cIHDR, []⟩ = [0, 0, 0, 0, 73, 72, 68, 82, 168, 161, 174, 10] := by decide
example :
    PngMetaWebStrip (encodePng [⟨cIHDR, []⟩]) =
      .ok (encodePng [⟨cIHDR, []⟩], Result.init) := by decide
example :
    PngMetaWebStrip (encodePng [⟨cIHDR, []⟩, ⟨ctEXt, [1]⟩]) =
      .ok (encodePng [⟨cIHDR, []⟩], ⟨⟨13, 0, 0, 0, 0⟩, 13⟩) := by decide
example : PngMetaWebStrip [] = .error .dataTooShort := by decide
example : PngMetaWebStrip [0, 0, 0, 0, 0, 0, 0, 0] = .error .invalidSignature := by decide

end Pngmetawebstrip
